import Mathlib

/-!
Verification of the KaraLuxer overlap-resolution and configuration subsystem.

The repository's only source file, `kl_gui.py`, contains the presentation
layer (the `OverlapSelectionWindow` dialog and the `KaraLuxerWindow` main
window).  Those parts are embedded directly from the source.  The core
pipeline described by the specification (`detect`, `resolve`, `assemble`)
has no implementation under `src/`; those definitions are modelled from the
specification's words and are marked as such in their doc comments.
-/

namespace KaraLuxer

/-- A subtitle line: start time, end time, style tag and text.  Times are
modelled as integers; the field `end_` embeds the spec's `end` (a reserved
word in Lean). -/
structure SubtitleLine where
  start : Int
  end_ : Int
  style : String
  text : String
deriving DecidableEq

/-- Modelled from the spec: two lines overlap iff
`a.start < b.end AND b.start < a.end` (half-open interval intersection). -/
def overlaps (a b : SubtitleLine) : Prop :=
  a.start < b.end_ ∧ b.start < a.end_

instance (a b : SubtitleLine) : Decidable (overlaps a b) := by
  unfold overlaps; exact inferInstance

/-- A line together with its positional index in the original sequence
(the spec makes identity positional). -/
abbrev IdxLine := Nat × SubtitleLine

/-- Pair each line with its positional index, starting from `n`. -/
def enumFrom (n : Nat) : List SubtitleLine → List IdxLine
  | [] => []
  | l :: ls => (n, l) :: enumFrom (n + 1) ls

/-- Modelled from the spec: the defensive sort key of the Overlap Detector —
start time, ties broken by original index. -/
def keyLe (p q : IdxLine) : Prop :=
  p.2.start < q.2.start ∨ (p.2.start = q.2.start ∧ p.1 ≤ q.1)

instance : DecidableRel keyLe := fun p q => by
  unfold keyLe; exact inferInstance

instance : IsTotal IdxLine keyLe where
  total p q := by
    unfold keyLe
    rcases lt_trichotomy p.2.start q.2.start with h | h | h
    · exact Or.inl (Or.inl h)
    · rcases Nat.le_total p.1 q.1 with h' | h'
      · exact Or.inl (Or.inr ⟨h, h'⟩)
      · exact Or.inr (Or.inr ⟨h.symm, h'⟩)
    · exact Or.inr (Or.inl h)

instance : IsTrans IdxLine keyLe where
  trans p q s hpq hqs := by
    unfold keyLe at *
    rcases hpq with h1 | ⟨h1, h1'⟩ <;> rcases hqs with h2 | ⟨h2, h2'⟩
    · exact Or.inl (h1.trans h2)
    · exact Or.inl (h2 ▸ h1)
    · exact Or.inl (h1 ▸ h2)
    · exact Or.inr ⟨h1.trans h2, h1'.trans h2'⟩

/-- Start times only (the consequence of `keyLe` used by the sweep). -/
def startLe (p q : IdxLine) : Prop := p.2.start ≤ q.2.start

/-- Modelled from the spec: the detector sorts defensively by start time,
ties broken by original index, before sweeping. -/
def sortPairs (ps : List IdxLine) : List IdxLine :=
  List.insertionSort keyLe ps

/-- Close the running cluster: emit it only if it has at least two members. -/
def emit (cur : List IdxLine) : List (List IdxLine) :=
  if 2 ≤ cur.length then [cur] else []

/-- Modelled from the spec: the interval-merging sweep.  A line joins the
running cluster when its start is before the cluster's maximum end time;
otherwise the cluster is closed (emitted only with two or more members) and
a new cluster begins at the line. -/
def sweepGo (cur : List IdxLine) (maxE : Int) : List IdxLine → List (List IdxLine)
  | [] => emit cur
  | p :: rest =>
    if p.2.start < maxE then
      sweepGo (cur ++ [p]) (max maxE p.2.end_) rest
    else
      emit cur ++ sweepGo [p] p.2.end_ rest

/-- Modelled from the spec: overlap detection over an already indexed list
of lines (used both on the full sequence and on reduced clusters). -/
def detectPairs (ps : List IdxLine) : List (List IdxLine) :=
  match sortPairs ps with
  | [] => []
  | p :: rest => sweepGo [p] p.2.end_ rest

/-- Modelled from the spec: `detect(lines)` — group temporally overlapping
lines of the ordered sequence into clusters of (index, line) members. -/
def detect (lines : List SubtitleLine) : List (List IdxLine) :=
  detectPairs (enumFrom 0 lines)

/-- Edges of a cluster's interval graph: both endpoints are members and the
two lines overlap. -/
def clusterRel (C : List IdxLine) (p q : IdxLine) : Prop :=
  p ∈ C ∧ q ∈ C ∧ overlaps p.2 q.2

/-- A cluster's members mutually chain-overlap: any two members are linked
by a chain of pairwise overlaps running inside the cluster. -/
def connected (C : List IdxLine) : Prop :=
  ∀ p ∈ C, ∀ q ∈ C, Relation.ReflTransGen (clusterRel C) p q

/-- Modelled from the spec: an interactive session terminated by the caller
before all clusters resolve. -/
inductive AbortedResolutionError where
  | aborted : AbortedResolutionError
deriving DecidableEq

/-- Modelled from the spec: a cluster is resolved when zero or one member
remains or no overlap remains among the survivors (re-running detection on
the reduced cluster finds nothing). -/
def clusterResolved (members : List IdxLine) : Prop :=
  members.length ≤ 1 ∨ detectPairs members = []

instance (members : List IdxLine) : Decidable (clusterResolved members) := by
  unfold clusterResolved; exact inferInstance

/-- Modelled from the spec: interactive resolution of one cluster.  The
decision channel is a list of caller-supplied discard indices consumed in
order.  While the cluster is unresolved the coordinator consumes the next
decision: a valid member index is discarded and detection re-runs on the
reduced cluster; an invalid index is rejected and the caller re-prompted.
An exhausted channel with the cluster still unresolved aborts the session.
Returns the surviving members, the discarded indices and the unconsumed
decisions. -/
def resolveCluster :
    List Nat → List IdxLine →
      Except AbortedResolutionError (List IdxLine × List Nat × List Nat)
  | [], members =>
    if clusterResolved members then .ok (members, [], [])
    else .error AbortedResolutionError.aborted
  | d :: ds, members =>
    if clusterResolved members then .ok (members, [], d :: ds)
    else if (members.map Prod.fst).contains d then
      match resolveCluster ds (members.filter fun p => p.1 != d) with
      | .error e => .error e
      | .ok (s, disc, rem) => .ok (s, d :: disc, rem)
    else
      resolveCluster ds members

/-- Modelled from the spec: resolve the clusters one at a time, threading
the decision channel; an abort inside any cluster is fatal to the run.
Returns all discarded indices and the unconsumed decisions. -/
def resolveAll :
    List Nat → List (List IdxLine) →
      Except AbortedResolutionError (List Nat × List Nat)
  | ds, [] => .ok ([], ds)
  | ds, C :: Cs =>
    match resolveCluster ds C with
    | .error e => .error e
    | .ok (_, disc, rem) =>
      match resolveAll rem Cs with
      | .error e => .error e
      | .ok (discs, rem') => .ok (disc ++ discs, rem')

/-- Earliest start time of a cluster (0 for an empty cluster, which never
arises). -/
def earliestStart : List IdxLine → Int
  | [] => 0
  | p :: ps => ps.foldl (fun m q => min m q.2.start) p.2.start

/-- Order on clusters: ascending earliest start time. -/
def clusterLe (C D : List IdxLine) : Prop :=
  earliestStart C ≤ earliestStart D

instance : DecidableRel clusterLe := fun C D => by
  unfold clusterLe; exact inferInstance

/-- Modelled from the spec: clusters are presented in ascending order of
earliest start time. -/
def sortClusters (Cs : List (List IdxLine)) : List (List IdxLine) :=
  List.insertionSort clusterLe Cs

/-- Modelled from the spec: the resolution policy. -/
inductive Policy where
  | interactive : Policy
  | ignoreAll : Policy

/-- Modelled from the spec: the Resolution Coordinator.  Under `ignoreAll`
every cluster is retained untouched; under `interactive` the clusters are
resolved in ascending earliest-start order against the decision channel,
and on success the discarded lines are removed from the working sequence
without reordering the survivors.  An aborted session produces no line
sequence at all. -/
def resolve (lines : List SubtitleLine) (clusters : List (List IdxLine))
    (policy : Policy) (decisions : List Nat) :
    Except AbortedResolutionError (List SubtitleLine × List Nat) :=
  match policy with
  | .ignoreAll => .ok (lines, [])
  | .interactive =>
    match resolveAll decisions (sortClusters clusters) with
    | .error e => .error e
    | .ok (disc, _) =>
      .ok (((enumFrom 0 lines).filter fun p => !(disc.contains p.1)).map Prod.snd,
           disc)

/-- Embeds the match step of Python's non-greedy pattern for bracketed
markup: starting just after a left brace, find the nearest right brace not
preceded by a newline (a dot in the pattern matches any character except a
newline).  Returns the remainder after that right brace, or `none` when the
match attempt fails. -/
def findClose : List Char → Option (List Char)
  | [] => none
  | c :: rest =>
    if c = '}' then some rest
    else if c = Char.ofNat 10 then none
    else findClose rest

/-- Embeds `re.sub` over the line text with the non-greedy bracketed-markup
pattern and an empty replacement, scanning left to right: at a left brace a
successful match deletes the whole bracketed span, a failed attempt keeps
the character and moves on; all other characters are kept. -/
def stripBracesAux : List Char → List Char
  | [] => []
  | c :: rest =>
    if c = '{' then
      match h : findClose rest with
      | some rest' => stripBracesAux rest'
      | none => c :: stripBracesAux rest
    else
      c :: stripBracesAux rest
termination_by l => l.length
decreasing_by
  · have key : ∀ (l l' : List Char), findClose l = some l' → l'.length < l.length := by
      intro l
      induction l with
      | nil => intro l' hq; simp [findClose] at hq
      | cons a as ih =>
        intro l' hq
        rw [findClose] at hq
        by_cases ha : a = '}'
        · rw [if_pos ha] at hq
          cases hq
          simp
        · rw [if_neg ha] at hq
          by_cases hn : a = Char.ofNat 10
          · rw [if_pos hn] at hq; cases hq
          · rw [if_neg hn] at hq
            exact Nat.lt_trans (ih _ hq) (by simp)
    have hlt := key _ _ h
    simp only [List.length_cons]
    omega
  · simp only [List.length_cons]; omega
  · simp only [List.length_cons]; omega

/-- Embeds the preview cleaning at `kl_gui.py:54`: remove every bracketed
markup span from the text, returning a fresh string. -/
def stripTags (s : String) : String :=
  String.mk (stripBracesAux s.data)

/-- Embeds the button label built at `kl_gui.py:55`. -/
def buttonString (l : SubtitleLine) : String :=
  "Time = " ++ toString l.start ++ " to " ++ toString l.end_ ++
    " | Style = \"" ++ l.style ++ "\" | Text = " ++ stripTags l.text

/-- Embeds the button-building loop of the selection window constructor:
returns the button labels in order, together with the line list as it
stands after the loop (the loop reads the lines and never writes them). -/
def initButtons : List SubtitleLine → List String × List SubtitleLine
  | [] => ([], [])
  | l :: ls =>
    let s := buttonString l
    let r := initButtons ls
    (s :: r.1, l :: r.2)

/-- Observable state of the `OverlapSelectionWindow` dialog. -/
structure SelWindow where
  title : String
  closeButtonHint : Bool
  infoLabel : String
  labels : List String
  selected_line : Option Int
  closed : Bool
deriving DecidableEq

/-- Embeds `OverlapSelectionWindow.__init__`: window settings, the
information label and one button per overlapping line. -/
def initSelWindow (overlapping : List SubtitleLine) : SelWindow :=
  { title := "Choose a line to discard"
    closeButtonHint := false
    infoLabel := "The following lines overlap, please select one to DISCARD."
    labels := (initButtons overlapping).1
    selected_line := none
    closed := false }

/-- Embeds `OverlapSelectionWindow._line_select_callback`: record the index
of the line to discard and close the window. -/
def lineSelectCallback (w : SelWindow) (line_index : Int) : SelWindow :=
  { w with selected_line := some line_index, closed := true }

/-- Value held by the loop variable of a completed Python loop over
`range(0, n)`: `none` when the body never ran, otherwise the last value. -/
def loopVarAfter (n : Nat) : Option Nat :=
  (List.range n).foldl (fun _ i => some i) none

/-- Embeds a click on the button built for member index `j`.  Every button
handler is the closure over the constructor's loop variable; the click can
only happen once the constructor has returned, so the handler reads the
loop variable's final value — whichever button was clicked. -/
def clickLineButton (overlapping : List SubtitleLine) (j : Nat) (w : SelWindow) :
    SelWindow :=
  match loopVarAfter overlapping.length with
  | some i => lineSelectCallback w (Int.ofNat i)
  | none => w

/-- The text fields of the main window. -/
structure MainWindow where
  kara_url_input : String
  sub_file_input : String
  cover_input : String
  bg_input : String
  bgv_input : String
  audio_input : String
  tv_checkbox : Bool
  ignore_overlaps_checkbox : Bool
  force_dialogue_checkbox : Bool
  autopitch_checkbox : Bool
deriving DecidableEq

/-- Names of the line-edit widgets a file picker can target. -/
inductive FieldId where
  | karaUrl : FieldId
  | subFile : FieldId
  | cover : FieldId
  | bg : FieldId
  | bgv : FieldId
  | audio : FieldId
deriving DecidableEq

/-- Read the text of the targeted line edit. -/
def getField (w : MainWindow) : FieldId → String
  | .karaUrl => w.kara_url_input
  | .subFile => w.sub_file_input
  | .cover => w.cover_input
  | .bg => w.bg_input
  | .bgv => w.bgv_input
  | .audio => w.audio_input

/-- Write the text of the targeted line edit (the effect of
`target.setText`). -/
def setField (w : MainWindow) (f : FieldId) (v : String) : MainWindow :=
  match f with
  | .karaUrl => { w with kara_url_input := v }
  | .subFile => { w with sub_file_input := v }
  | .cover => { w with cover_input := v }
  | .bg => { w with bg_input := v }
  | .bgv => { w with bgv_input := v }
  | .audio => { w with audio_input := v }

/-- Outcome of the modal file dialog: whether it was accepted, and the
selected files. -/
structure FileDialog where
  accepted : Bool
  selectedFiles : List String

/-- Embeds `KaraLuxerWindow._get_file_path`: when the dialog is accepted the
target line edit receives the first selected file, otherwise nothing
happens. -/
def getFilePath (w : MainWindow) (target : FieldId) (dlg : FileDialog) :
    MainWindow :=
  if dlg.accepted then setField w target (dlg.selectedFiles.headD "") else w

/-- Modelled from the spec: the exclusive subtitle source of a run
configuration. -/
inductive SubSource where
  | karaUrl : String → SubSource
  | subFile : String → SubSource
deriving DecidableEq

/-- Raw user-supplied inputs handed to the Configuration Assembler; an empty
string stands for an unset path field. -/
structure RawInputs where
  kara_url : String
  sub_file : String
  cover : String
  background : String
  background_video : String
  audio : String
  tv_sized : Bool
  ignore_overlaps : Bool
  force_dialogue : Bool
  generate_pitches : Bool

/-- Modelled from the spec: the assembler's error taxonomy — missing
required field, mutually-exclusive-source violation, or unreadable path,
each reporting the specific violated precondition. -/
inductive ValidationError where
  | exclusiveSource : ValidationError
  | missingField : String → ValidationError
  | unreadablePath : String → String → ValidationError
deriving DecidableEq

/-- The field a validation error names, when it names one. -/
def errorField : ValidationError → Option String
  | .exclusiveSource => none
  | .missingField f => some f
  | .unreadablePath f _ => some f

/-- Modelled from the spec: the validated, immutable run configuration. -/
structure RunConfiguration where
  source : SubSource
  cover : String
  background : Option String
  backgroundVideo : Option String
  audio : Option String
  tvSized : Bool
  ignoreOverlaps : Bool
  forceDialogue : Bool
  generatePitches : Bool

/-- An optional path: empty means absent. -/
def optPath (s : String) : Option String :=
  if s = "" then none else some s

/-- Modelled from the spec: `assemble(raw_inputs)` validates exclusivity of
the subtitle source, required presence of the cover image, and existence /
readability of every supplied path (against the filesystem predicate `fs`),
failing with a `ValidationError` rather than producing a partially valid
object. -/
def assemble (raw : RawInputs) (fs : String → Bool) :
    Except ValidationError RunConfiguration :=
  if raw.kara_url ≠ "" ∧ raw.sub_file ≠ "" then .error .exclusiveSource
  else if raw.kara_url = "" ∧ raw.sub_file = "" then .error .exclusiveSource
  else if raw.cover = "" then .error (.missingField "cover image")
  else if fs raw.cover = false then
    .error (.unreadablePath "cover image" raw.cover)
  else if raw.sub_file ≠ "" ∧ fs raw.sub_file = false then
    .error (.unreadablePath "subtitle file" raw.sub_file)
  else if raw.background ≠ "" ∧ fs raw.background = false then
    .error (.unreadablePath "background image" raw.background)
  else if raw.background_video ≠ "" ∧ fs raw.background_video = false then
    .error (.unreadablePath "background video" raw.background_video)
  else if raw.audio ≠ "" ∧ fs raw.audio = false then
    .error (.unreadablePath "audio" raw.audio)
  else
    .ok { source := if raw.kara_url ≠ "" then SubSource.karaUrl raw.kara_url
                    else SubSource.subFile raw.sub_file
          cover := raw.cover
          background := optPath raw.background
          backgroundVideo := optPath raw.background_video
          audio := optPath raw.audio
          tvSized := raw.tv_sized
          ignoreOverlaps := raw.ignore_overlaps
          forceDialogue := raw.force_dialogue
          generatePitches := raw.generate_pitches }

/-- A concrete line with the given start and end times. -/
def mkLine (s e : Int) : SubtitleLine :=
  ⟨s, e, "Default", ""⟩

/-- A concrete line with the given times and text. -/
def mkLineT (s e : Int) (t : String) : SubtitleLine :=
  ⟨s, e, "Default", t⟩

/-- The spec's second-round example cluster: L1[0,10], L2[2,4], L3[6,8]. -/
def exCluster2 : List IdxLine :=
  [(0, mkLine 0 10), (1, mkLine 2 4), (2, mkLine 6 8)]

/-- Four lines forming two separate overlap clusters. -/
def exLines7 : List SubtitleLine :=
  [mkLine 0 3, mkLine 2 5, mkLine 10 13, mkLine 12 15]

/-- The first cluster of `exLines7`. -/
def exCluster7A : List IdxLine :=
  [(0, mkLine 0 3), (1, mkLine 2 5)]

/-- The second cluster of `exLines7`. -/
def exCluster7B : List IdxLine :=
  [(2, mkLine 10 13), (3, mkLine 12 15)]

/-- A main window with every field blank. -/
def emptyMainWindow : MainWindow :=
  ⟨"", "", "", "", "", "", false, false, false, false⟩

/-- An accepted file dialog with one selected file. -/
def dlgAccepted : FileDialog :=
  ⟨true, ["cover.png"]⟩

/-- A cancelled file dialog. -/
def dlgRejected : FileDialog :=
  ⟨false, []⟩

/-- Raw inputs with both subtitle sources set. -/
def rawBoth : RawInputs :=
  ⟨"url", "file.ass", "cover.png", "", "", "", false, false, false, false⟩

/-- Raw inputs with neither subtitle source set. -/
def rawNeither : RawInputs :=
  ⟨"", "", "cover.png", "", "", "", false, false, false, false⟩

/-- Raw inputs with a valid exclusive source and a cover image path. -/
def rawCoverMissing : RawInputs :=
  ⟨"url", "", "cover.png", "", "", "", false, false, false, false⟩

/-- A filesystem on which no path exists. -/
def fsEmpty : String → Bool :=
  fun _ => false

/-- C9: calling `_line_select_callback(line_index)` sets the window's
`selected_line` attribute to exactly `line_index` and closes the window,
leaving every other piece of window state unchanged. -/
theorem line_select_callback_spec (w : SelWindow) (line_index : Int) :
    (lineSelectCallback w line_index).selected_line = some line_index ∧
    (lineSelectCallback w line_index).closed = true ∧
    (lineSelectCallback w line_index).title = w.title ∧
    (lineSelectCallback w line_index).closeButtonHint = w.closeButtonHint ∧
    (lineSelectCallback w line_index).infoLabel = w.infoLabel ∧
    (lineSelectCallback w line_index).labels = w.labels :=
  ⟨rfl, rfl, rfl, rfl, rfl, rfl⟩

/-- C1 (counter-evidence): with the two overlapping lines [0,5] and [3,8],
activating the selection control for member index 0 records index 1 — every
button handler closes over the constructor's loop variable, whose final
value is the last member index — so index 0 is never recorded. -/
theorem click_first_button_records_last_index :
    (clickLineButton [mkLine 0 5, mkLine 3 8] 0
        (initSelWindow [mkLine 0 5, mkLine 3 8])).selected_line = some 1 ∧
    (1 : Int) ≠ 0 := by
  exact ⟨rfl, by decide⟩

/-- C10: `_get_file_path` leaves the target field unchanged when the dialog
is rejected; when accepted it sets the target's text to the first selected
file and modifies no other field or checkbox. -/
theorem get_file_path_spec (w : MainWindow) (target : FieldId) (dlg : FileDialog) :
    (dlg.accepted = false → getFilePath w target dlg = w) ∧
    (∀ f rest, dlg.accepted = true → dlg.selectedFiles = f :: rest →
      getField (getFilePath w target dlg) target = f ∧
      (∀ g, g ≠ target → getField (getFilePath w target dlg) g = getField w g)) ∧
    ((getFilePath w target dlg).tv_checkbox = w.tv_checkbox ∧
     (getFilePath w target dlg).ignore_overlaps_checkbox = w.ignore_overlaps_checkbox ∧
     (getFilePath w target dlg).force_dialogue_checkbox = w.force_dialogue_checkbox ∧
     (getFilePath w target dlg).autopitch_checkbox = w.autopitch_checkbox) := by
  refine ⟨?_, ?_, ?_⟩
  · intro hrej
    unfold getFilePath
    rw [hrej]
    rfl
  · intro f rest hacc hsel
    unfold getFilePath
    rw [hacc, hsel]
    simp only [if_true, List.headD_cons]
    constructor
    · cases target <;> rfl
    · intro g hg
      cases target <;> cases g <;> first
        | exact absurd rfl hg
        | rfl
  · unfold getFilePath
    by_cases hacc : dlg.accepted
    · rw [if_pos hacc]
      cases target <;> exact ⟨rfl, rfl, rfl, rfl⟩
    · rw [if_neg hacc]
      exact ⟨rfl, rfl, rfl, rfl⟩

/-- Witness for C10 at concrete inputs: an accepted dialog writes the first
selected file into the cover field, a rejected dialog changes nothing. -/
theorem get_file_path_spec_witness :
    getField (getFilePath emptyMainWindow FieldId.cover dlgAccepted) FieldId.cover =
      "cover.png" ∧
    getFilePath emptyMainWindow FieldId.cover dlgRejected = emptyMainWindow :=
  ⟨((get_file_path_spec emptyMainWindow FieldId.cover dlgAccepted).2.1
      "cover.png" [] rfl rfl).1,
   (get_file_path_spec emptyMainWindow FieldId.cover dlgRejected).1 rfl⟩

/-- C8: `resolve` is deterministic — identical line sequences, identical
cluster inputs and identical decision sequences yield identical results,
in particular identical clean line sequences. -/
theorem resolve_deterministic (l₁ l₂ : List SubtitleLine)
    (c₁ c₂ : List (List IdxLine)) (pol : Policy) (d₁ d₂ : List Nat)
    (hl : l₁ = l₂) (hc : c₁ = c₂) (hd : d₁ = d₂) :
    resolve l₁ c₁ pol d₁ = resolve l₂ c₂ pol d₂ := by
  subst hl; subst hc; subst hd; rfl

/-- Witness for C8 at a concrete input. -/
theorem resolve_deterministic_witness :
    resolve exLines7 [exCluster7A, exCluster7B] Policy.interactive [0, 2] =
      resolve exLines7 [exCluster7A, exCluster7B] Policy.interactive [0, 2] :=
  resolve_deterministic exLines7 exLines7 [exCluster7A, exCluster7B]
    [exCluster7A, exCluster7B] Policy.interactive [0, 2] [0, 2] rfl rfl rfl

/-- C6: `assemble` fails with a `ValidationError` when both subtitle sources
are set and when neither is set; with a valid exclusive source, a cover
image path that does not exist on the filesystem also fails, with an error
naming the cover image field.  In each case no configuration is produced. -/
theorem assemble_validation_failures (raw : RawInputs) (fs : String → Bool) :
    (raw.kara_url ≠ "" → raw.sub_file ≠ "" →
      assemble raw fs = .error ValidationError.exclusiveSource) ∧
    (raw.kara_url = "" → raw.sub_file = "" →
      assemble raw fs = .error ValidationError.exclusiveSource) ∧
    (((raw.kara_url = "") ↔ ¬(raw.sub_file = "")) → fs raw.cover = false →
      ∃ e, assemble raw fs = .error e ∧ errorField e = some "cover image") := by
  refine ⟨?_, ?_, ?_⟩
  · intro hu hf
    unfold assemble
    rw [if_pos ⟨hu, hf⟩]
  · intro hu hf
    unfold assemble
    rw [if_neg (fun h => h.1 hu), if_pos ⟨hu, hf⟩]
  · intro hxor hcov
    have hb : ¬(raw.kara_url ≠ "" ∧ raw.sub_file ≠ "") :=
      fun h => h.1 (hxor.mpr h.2)
    have hn : ¬(raw.kara_url = "" ∧ raw.sub_file = "") :=
      fun h => (hxor.mp h.1) h.2
    unfold assemble
    rw [if_neg hb, if_neg hn]
    by_cases hc : raw.cover = ""
    · rw [if_pos hc]
      exact ⟨ValidationError.missingField "cover image", rfl, rfl⟩
    · rw [if_neg hc, if_pos hcov]
      exact ⟨ValidationError.unreadablePath "cover image" raw.cover, rfl, rfl⟩

/-- Witness for C6 at concrete inputs: both sources set, neither set, and a
nonexistent cover image. -/
theorem assemble_validation_failures_witness :
    assemble rawBoth fsEmpty = .error ValidationError.exclusiveSource ∧
    assemble rawNeither fsEmpty = .error ValidationError.exclusiveSource ∧
    ∃ e, assemble rawCoverMissing fsEmpty = .error e ∧
      errorField e = some "cover image" :=
  ⟨(assemble_validation_failures rawBoth fsEmpty).1 (by decide) (by decide),
   (assemble_validation_failures rawNeither fsEmpty).2.1 rfl rfl,
   (assemble_validation_failures rawCoverMissing fsEmpty).2.2 (by decide) rfl⟩

/-- C2: whenever interactive resolution of a cluster succeeds, the surviving
members satisfy the loop's exit condition — at most one member remains or
re-running overlap detection on the survivors finds no overlap; and on the
cluster L1[0,10], L2[2,4], L3[6,8], discarding L2 (index 1) leaves a
remainder {L1, L3} on which re-run detection still finds an overlap, so a
run offering only that one decision aborts awaiting the second prompt,
while a second decision (discarding index 0) lets resolution terminate. -/
theorem resolve_cluster_loop :
    (∀ (ds : List Nat) (members s : List IdxLine) (disc rem : List Nat),
        resolveCluster ds members = .ok (s, disc, rem) →
        s.length ≤ 1 ∨ detectPairs s = []) ∧
    detectPairs [(0, mkLine 0 10), (2, mkLine 6 8)] ≠ [] ∧
    resolveCluster [1] exCluster2 = .error AbortedResolutionError.aborted ∧
    resolveCluster [1, 0] exCluster2 = .ok ([(2, mkLine 6 8)], [1, 0], []) := by
  refine ⟨?_, by decide, rfl, rfl⟩
  intro ds
  induction ds with
  | nil =>
    intro members s disc rem hok
    rw [resolveCluster] at hok
    by_cases hr : clusterResolved members
    · rw [if_pos hr] at hok
      simp only [Except.ok.injEq, Prod.mk.injEq] at hok
      obtain ⟨h1, -, -⟩ := hok
      rw [← h1]
      exact hr
    · rw [if_neg hr] at hok
      exact Except.noConfusion hok
  | cons d ds ih =>
    intro members s disc rem hok
    rw [resolveCluster] at hok
    by_cases hr : clusterResolved members
    · rw [if_pos hr] at hok
      simp only [Except.ok.injEq, Prod.mk.injEq] at hok
      obtain ⟨h1, -, -⟩ := hok
      rw [← h1]
      exact hr
    · rw [if_neg hr] at hok
      by_cases hd : (members.map Prod.fst).contains d
      · rw [if_pos hd] at hok
        cases hm : resolveCluster ds (members.filter fun p => p.1 != d) with
        | error e =>
          rw [hm] at hok
          exact Except.noConfusion hok
        | ok val =>
          obtain ⟨s', disc', rem'⟩ := val
          rw [hm] at hok
          simp only [Except.ok.injEq, Prod.mk.injEq] at hok
          obtain ⟨h1, -, -⟩ := hok
          rw [← h1]
          exact ih _ s' disc' rem' hm
      · rw [if_neg hd] at hok
        exact ih _ s disc rem hok

/-- Witness for C2's universally quantified part, at the concrete
two-decision run on the example cluster: the survivors satisfy the exit
condition. -/
theorem resolve_cluster_loop_witness :
    ([(2, mkLine 6 8)] : List IdxLine).length ≤ 1 ∨
      detectPairs [(2, mkLine 6 8)] = [] :=
  resolve_cluster_loop.1 [1, 0] exCluster2 [(2, mkLine 6 8)] [1, 0] [] rfl

/-- C7: an interactive session aborted before all clusters resolve produces
no output artifact — a run that errors returns no clean line sequence at
all; concretely, on two clusters with only enough decisions for the first,
the whole run yields the abort error even though the first cluster had
already been resolved. -/
theorem aborted_resolution_no_output :
    (∀ (lines : List SubtitleLine) (clusters : List (List IdxLine))
        (ds : List Nat) (e : AbortedResolutionError),
        resolve lines clusters Policy.interactive ds = .error e →
        ∀ out, resolve lines clusters Policy.interactive ds ≠ .ok out) ∧
    resolve exLines7 [exCluster7A, exCluster7B] Policy.interactive [0] =
      .error AbortedResolutionError.aborted := by
  refine ⟨?_, rfl⟩
  intro lines clusters ds e he out hok
  rw [he] at hok
  exact Except.noConfusion hok

/-- Witness for C7 at the concrete aborted run. -/
theorem aborted_resolution_no_output_witness :
    resolve exLines7 [exCluster7A, exCluster7B] Policy.interactive [0] ≠
      .ok (exLines7, []) :=
  aborted_resolution_no_output.1 exLines7 [exCluster7A, exCluster7B] [0]
    AbortedResolutionError.aborted rfl (exLines7, [])

/-- C3 (counterexample): lines with a.end = b.start can still appear
together in a cluster produced by detect — with [0,10], [2,4], [4,8], the
second line ends exactly where the third starts and the two do not overlap,
yet both sit in the single cluster detect returns, chained through the
first line. -/
theorem touching_lines_share_cluster :
    (mkLine 2 4).end_ = (mkLine 4 8).start ∧
    ¬ overlaps (mkLine 2 4) (mkLine 4 8) ∧
    detect [mkLine 0 10, mkLine 2 4, mkLine 4 8] =
      [[(0, mkLine 0 10), (1, mkLine 2 4), (2, mkLine 4 8)]] := by
  refine ⟨rfl, by decide, rfl⟩

/-- C3 (amended): two lines overlap iff a.start < b.end and b.start < a.end;
lines with a.end = b.start do not overlap and, as the only two lines of a
sequence, produce no cluster — though transitive chaining through other
lines may still place them in a common cluster. -/
theorem overlap_boundary_semantics (a b : SubtitleLine)
    (hva : a.start < a.end_) (hvb : b.start < b.end_) :
    (overlaps a b ↔ a.start < b.end_ ∧ b.start < a.end_) ∧
    (a.end_ = b.start → ¬ overlaps a b) ∧
    (a.end_ = b.start → detect [a, b] = []) := by
  refine ⟨Iff.rfl, ?_, ?_⟩
  · intro h hov
    have hov' : a.start < b.end_ ∧ b.start < a.end_ := hov
    rw [h] at hov'
    exact lt_irrefl b.start hov'.2
  · intro h
    have hab : a.start < b.start := h ▸ hva
    have hk : keyLe (0, a) (1, b) := Or.inl hab
    have hnb : ¬((1, b) : IdxLine).2.start < a.end_ := by
      simp only
      rw [← h]
      exact lt_irrefl _
    unfold detect detectPairs sortPairs enumFrom
    simp only [List.insertionSort, List.orderedInsert, if_pos hk]
    rw [sweepGo, if_neg hnb, sweepGo]
    simp [emit]

/-- Witness for C3's amended theorem at concrete touching lines. -/
theorem overlap_boundary_semantics_witness :
    ¬ overlaps (mkLine 0 4) (mkLine 4 8) ∧
    detect [mkLine 0 4, mkLine 4 8] = [] :=
  ⟨(overlap_boundary_semantics (mkLine 0 4) (mkLine 4 8) (by decide) (by decide)).2.1 rfl,
   (overlap_boundary_semantics (mkLine 0 4) (mkLine 4 8) (by decide) (by decide)).2.2 rfl⟩

/-- The sort key implies ordering of start times. -/
theorem keyLe_startLe {p q : IdxLine} (h : keyLe p q) : startLe p q := by
  rcases h with h | ⟨h, -⟩
  · exact le_of_lt h
  · exact le_of_eq h

/-- Members of the indexed list carry lines of the original sequence. -/
theorem enumFrom_snd_mem {n : Nat} {ls : List SubtitleLine} {p : IdxLine}
    (h : p ∈ enumFrom n ls) : p.2 ∈ ls := by
  induction ls generalizing n with
  | nil => simp [enumFrom] at h
  | cons l ls ih =>
    rw [enumFrom] at h
    rcases List.mem_cons.mp h with h | h
    · rw [h]
      exact List.mem_cons_self l ls
    · exact List.mem_cons_of_mem l (ih h)

/-- Indices of the indexed list are bounded below by the offset. -/
theorem enumFrom_fst_ge {n : Nat} {ls : List SubtitleLine} {p : IdxLine}
    (h : p ∈ enumFrom n ls) : n ≤ p.1 := by
  induction ls generalizing n with
  | nil => simp [enumFrom] at h
  | cons l ls ih =>
    rw [enumFrom] at h
    rcases List.mem_cons.mp h with h | h
    · rw [h]
    · exact Nat.le_of_succ_le (ih h)

/-- The indexed list has no duplicate members. -/
theorem enumFrom_nodup (n : Nat) (ls : List SubtitleLine) :
    (enumFrom n ls).Nodup := by
  induction ls generalizing n with
  | nil => exact List.nodup_nil
  | cons l ls ih =>
    rw [enumFrom]
    refine List.nodup_cons.mpr ⟨?_, ih (n + 1)⟩
    intro hmem
    have := enumFrom_fst_ge hmem
    omega

/-- Emitted clusters are the closed running cluster, of size at least 2. -/
theorem mem_emit {cur C : List IdxLine} (h : C ∈ emit cur) :
    C = cur ∧ 2 ≤ cur.length := by
  unfold emit at h
  by_cases h2 : 2 ≤ cur.length
  · rw [if_pos h2] at h
    exact ⟨List.mem_singleton.mp h, h2⟩
  · rw [if_neg h2] at h
    exact absurd h (List.not_mem_nil C)

/-- A running cluster of size at least 2 is emitted when closed. -/
theorem emit_self {cur : List IdxLine} (h2 : 2 ≤ cur.length) : cur ∈ emit cur := by
  unfold emit
  rw [if_pos h2]
  exact List.mem_singleton_self cur

/-- Chains inside a cluster lift along cluster inclusion. -/
theorem clusterRel_mono {C D : List IdxLine} (hsub : ∀ x ∈ C, x ∈ D) {p q : IdxLine}
    (h : Relation.ReflTransGen (clusterRel C) p q) :
    Relation.ReflTransGen (clusterRel D) p q :=
  h.mono fun a b hab => ⟨hsub a hab.1, hsub b hab.2.1, hab.2.2⟩

/-- A one-member cluster is chain-connected. -/
theorem connected_singleton (p : IdxLine) : connected [p] := by
  intro a ha b hb
  rw [List.mem_singleton.mp ha, List.mem_singleton.mp hb]

/-- Appending a member that overlaps an existing member keeps the cluster
chain-connected. -/
theorem connected_snoc {cur : List IdxLine} {t m : IdxLine}
    (ht : t ∈ cur) (hconn : connected cur) (hov : overlaps t.2 m.2) :
    connected (cur ++ [m]) := by
  have hsub : ∀ x ∈ cur, x ∈ cur ++ [m] := fun x hx => List.mem_append_left _ hx
  have hm : m ∈ cur ++ [m] := List.mem_append_right _ (List.mem_singleton_self m)
  have hovrev : overlaps m.2 t.2 := ⟨hov.2, hov.1⟩
  intro p hp q hq
  rcases List.mem_append.mp hp with hp' | hp' <;>
    rcases List.mem_append.mp hq with hq' | hq'
  · exact clusterRel_mono hsub (hconn p hp' q hq')
  · rw [List.mem_singleton.mp hq']
    exact Relation.ReflTransGen.tail (clusterRel_mono hsub (hconn p hp' t ht))
      ⟨hsub t ht, hm, hov⟩
  · rw [List.mem_singleton.mp hp']
    exact Relation.ReflTransGen.head ⟨hm, hsub t ht, hovrev⟩
      (clusterRel_mono hsub (hconn t ht q hq'))
  · rw [List.mem_singleton.mp hp', List.mem_singleton.mp hq']

/-- Every member of an emitted cluster comes from the running cluster or the
unswept remainder. -/
theorem sweepGo_subset (rest : List IdxLine) :
    ∀ (cur : List IdxLine) (maxE : Int) (C : List IdxLine),
      C ∈ sweepGo cur maxE rest → ∀ p ∈ C, p ∈ cur ++ rest := by
  induction rest with
  | nil =>
    intro cur maxE C hC p hp
    rw [sweepGo.eq_1] at hC
    rw [(mem_emit hC).1] at hp
    exact List.mem_append_left _ hp
  | cons p₀ rest ih =>
    intro cur maxE C hC p hp
    rw [sweepGo] at hC
    by_cases hlt : p₀.2.start < maxE
    · rw [if_pos hlt] at hC
      have := ih _ _ _ hC p hp
      rw [List.append_cons]
      exact this
    · rw [if_neg hlt] at hC
      rcases List.mem_append.mp hC with hC | hC
      · rw [(mem_emit hC).1] at hp
        exact List.mem_append_left _ hp
      · have := ih _ _ _ hC p hp
        exact List.mem_append_right _ (by simpa using this)

/-- Every emitted cluster has at least two members. -/
theorem sweepGo_two_le (rest : List IdxLine) :
    ∀ (cur : List IdxLine) (maxE : Int) (C : List IdxLine),
      C ∈ sweepGo cur maxE rest → 2 ≤ C.length := by
  induction rest with
  | nil =>
    intro cur maxE C hC
    rw [sweepGo.eq_1] at hC
    rcases mem_emit hC with ⟨rfl, h2⟩
    exact h2
  | cons p₀ rest ih =>
    intro cur maxE C hC
    rw [sweepGo] at hC
    by_cases hlt : p₀.2.start < maxE
    · rw [if_pos hlt] at hC
      exact ih _ _ _ hC
    · rw [if_neg hlt] at hC
      rcases List.mem_append.mp hC with hC | hC
      · rcases mem_emit hC with ⟨rfl, h2⟩
        exact h2
      · exact ih _ _ _ hC

/-- Emitted clusters have no duplicate members. -/
theorem sweepGo_nodup (rest : List IdxLine) :
    ∀ (cur : List IdxLine) (maxE : Int), (cur ++ rest).Nodup →
      ∀ C ∈ sweepGo cur maxE rest, C.Nodup := by
  induction rest with
  | nil =>
    intro cur maxE hnd C hC
    rw [sweepGo.eq_1] at hC
    rw [(mem_emit hC).1]
    simpa using hnd
  | cons p₀ rest ih =>
    intro cur maxE hnd C hC
    rw [sweepGo] at hC
    by_cases hlt : p₀.2.start < maxE
    · rw [if_pos hlt] at hC
      exact ih _ _ (by rwa [← List.append_cons]) C hC
    · rw [if_neg hlt] at hC
      rcases List.mem_append.mp hC with hC | hC
      · rw [(mem_emit hC).1]
        exact (List.nodup_append.mp hnd).1
      · refine ih _ _ ?_ C hC
        simpa using (List.nodup_append.mp hnd).2.1

/-- Distinct emitted clusters are disjoint in membership. -/
theorem sweepGo_pairwise_disjoint (rest : List IdxLine) :
    ∀ (cur : List IdxLine) (maxE : Int), (cur ++ rest).Nodup →
      List.Pairwise (fun C D => ∀ p ∈ C, p ∉ D) (sweepGo cur maxE rest) := by
  induction rest with
  | nil =>
    intro cur maxE _
    rw [sweepGo.eq_1]
    unfold emit
    split
    · exact List.pairwise_singleton _ _
    · exact List.Pairwise.nil
  | cons p₀ rest ih =>
    intro cur maxE hnd
    rw [sweepGo]
    by_cases hlt : p₀.2.start < maxE
    · rw [if_pos hlt]
      exact ih _ _ (by rwa [← List.append_cons])
    · rw [if_neg hlt]
      have hnd2 : ([p₀] ++ rest).Nodup := by
        simpa using (List.nodup_append.mp hnd).2.1
      refine List.pairwise_append.mpr ⟨?_, ih _ _ hnd2, ?_⟩
      · unfold emit
        split
        · exact List.pairwise_singleton _ _
        · exact List.Pairwise.nil
      · intro C hC D hD p hpC hpD
        rcases mem_emit hC with ⟨rfl, -⟩
        have hpRest : p ∈ [p₀] ++ rest := sweepGo_subset rest _ _ _ hD p hpD
        exact (List.nodup_append.mp hnd).2.2 hpC (by simpa using hpRest)

/-- Every emitted cluster is chain-connected, given valid lines, sorted
input and a running cluster that is itself connected with a witness for its
maximum end time. -/
theorem sweepGo_connected (rest : List IdxLine) :
    ∀ (cur : List IdxLine) (maxE : Int),
      (∀ p ∈ cur ++ rest, p.2.start < p.2.end_) →
      List.Pairwise startLe rest →
      (∀ p ∈ cur, ∀ q ∈ rest, startLe p q) →
      (∀ p ∈ cur, p.2.end_ ≤ maxE) →
      (∃ t ∈ cur, t.2.end_ = maxE) →
      connected cur →
      ∀ C ∈ sweepGo cur maxE rest, connected C := by
  induction rest with
  | nil =>
    intro cur maxE _ _ _ _ _ hconn C hC
    rw [sweepGo.eq_1] at hC
    rw [(mem_emit hC).1]
    exact hconn
  | cons p₀ rest ih =>
    intro cur maxE hval hsort hle hub hwit hconn C hC
    rw [sweepGo] at hC
    have hp₀rest : ∀ q ∈ rest, startLe p₀ q := (List.pairwise_cons.mp hsort).1
    have hsort' : List.Pairwise startLe rest := (List.pairwise_cons.mp hsort).2
    by_cases hlt : p₀.2.start < maxE
    · rw [if_pos hlt] at hC
      obtain ⟨t, htc, hte⟩ := hwit
      have hov : overlaps t.2 p₀.2 := by
        constructor
        · exact lt_of_le_of_lt (hle t htc p₀ (List.mem_cons_self p₀ rest))
            (hval p₀ (List.mem_append_right _ (List.mem_cons_self p₀ rest)))
        · rw [hte]
          exact hlt
      refine ih (cur ++ [p₀]) (max maxE p₀.2.end_) ?_ hsort' ?_ ?_ ?_
        (connected_snoc htc hconn hov) C hC
      · intro p hp
        rw [← List.append_cons] at hp
        exact hval p hp
      · intro p hp q hq
        rcases List.mem_append.mp hp with hp' | hp'
        · exact hle p hp' q (List.mem_cons_of_mem _ hq)
        · rw [List.mem_singleton.mp hp']
          exact hp₀rest q hq
      · intro p hp
        rcases List.mem_append.mp hp with hp' | hp'
        · exact le_trans (hub p hp') (le_max_left _ _)
        · rw [List.mem_singleton.mp hp']
          exact le_max_right _ _
      · rcases le_total p₀.2.end_ maxE with hmx | hmx
        · exact ⟨t, List.mem_append_left _ htc, by rw [hte, max_eq_left hmx]⟩
        · exact ⟨p₀, List.mem_append_right _ (List.mem_singleton_self p₀),
            (max_eq_right hmx).symm⟩
    · rw [if_neg hlt] at hC
      rcases List.mem_append.mp hC with hC | hC
      · rw [(mem_emit hC).1]
        exact hconn
      · refine ih [p₀] p₀.2.end_ ?_ hsort' ?_ ?_
          ⟨p₀, List.mem_singleton_self p₀, rfl⟩ (connected_singleton p₀) C hC
        · intro p hp
          apply hval
          rcases List.mem_append.mp hp with hp' | hp'
          · rw [List.mem_singleton.mp hp']
            exact List.mem_append_right _ (List.mem_cons_self p₀ rest)
          · exact List.mem_append_right _ (List.mem_cons_of_mem _ hp')
        · intro p hp q hq
          rw [List.mem_singleton.mp hp]
          exact hp₀rest q hq
        · intro p hp
          rw [List.mem_singleton.mp hp]

/-- A line the sweep leaves out of every emitted cluster overlaps no other
line of the input, given sorted input and the running-cluster invariants. -/
theorem sweepGo_absent (rest : List IdxLine) :
    ∀ (cur : List IdxLine) (maxE : Int),
      List.Pairwise startLe rest →
      (∀ p ∈ cur, ∀ q ∈ rest, startLe p q) →
      (∀ p ∈ cur, p.2.end_ ≤ maxE) →
      (∃ t ∈ cur, t.2.end_ = maxE) →
      ∀ p ∈ cur ++ rest, (∀ C ∈ sweepGo cur maxE rest, p ∉ C) →
        ∀ q ∈ cur ++ rest, q ≠ p → ¬ overlaps p.2 q.2 := by
  induction rest with
  | nil =>
    intro cur maxE _ _ _ hwit p hp habs q hq hne
    rw [List.append_nil] at hp hq
    rw [sweepGo.eq_1] at habs
    by_cases h2 : 2 ≤ cur.length
    · exact absurd hp (habs cur (emit_self h2))
    · obtain ⟨t, ht, -⟩ := hwit
      have hlen1 : cur.length = 1 := by
        have := List.length_pos_of_mem ht
        omega
      obtain ⟨a, ha⟩ := List.length_eq_one.mp hlen1
      rw [ha] at hp hq
      exact absurd ((List.mem_singleton.mp hq).trans (List.mem_singleton.mp hp).symm) hne
  | cons p₀ rest ih =>
    intro cur maxE hsort hle hub hwit p hp habs q hq hne
    rw [sweepGo] at habs
    have hp₀rest : ∀ q ∈ rest, startLe p₀ q := (List.pairwise_cons.mp hsort).1
    have hsort' : List.Pairwise startLe rest := (List.pairwise_cons.mp hsort).2
    by_cases hlt : p₀.2.start < maxE
    · rw [if_pos hlt] at habs
      rw [List.append_cons] at hp hq
      refine ih (cur ++ [p₀]) (max maxE p₀.2.end_) hsort' ?_ ?_ ?_ p hp habs q hq hne
      · intro x hx y hy
        rcases List.mem_append.mp hx with hx' | hx'
        · exact hle x hx' y (List.mem_cons_of_mem _ hy)
        · rw [List.mem_singleton.mp hx']
          exact hp₀rest y hy
      · intro x hx
        rcases List.mem_append.mp hx with hx' | hx'
        · exact le_trans (hub x hx') (le_max_left _ _)
        · rw [List.mem_singleton.mp hx']
          exact le_max_right _ _
      · obtain ⟨t, htc, hte⟩ := hwit
        rcases le_total p₀.2.end_ maxE with hmx | hmx
        · exact ⟨t, List.mem_append_left _ htc, by rw [hte, max_eq_left hmx]⟩
        · exact ⟨p₀, List.mem_append_right _ (List.mem_singleton_self p₀),
            (max_eq_right hmx).symm⟩
    · rw [if_neg hlt] at habs
      have habs1 : ∀ C ∈ emit cur, p ∉ C :=
        fun C hC => habs C (List.mem_append_left _ hC)
      have habs2 : ∀ C ∈ sweepGo [p₀] p₀.2.end_ rest, p ∉ C :=
        fun C hC => habs C (List.mem_append_right _ hC)
      have hmaxle : maxE ≤ p₀.2.start := le_of_not_lt hlt
      rcases List.mem_append.mp hp with hpc | hpr
      · by_cases h2 : 2 ≤ cur.length
        · exact absurd hpc (habs1 cur (emit_self h2))
        · obtain ⟨t, ht, hte⟩ := hwit
          have hlen1 : cur.length = 1 := by
            have := List.length_pos_of_mem ht
            omega
          obtain ⟨s, hs⟩ := List.length_eq_one.mp hlen1
          rw [hs] at hpc ht
          have hps : p = s := List.mem_singleton.mp hpc
          have hts : t = s := List.mem_singleton.mp ht
          have hse : s.2.end_ = maxE := by
            rw [← hts]
            exact hte
          rcases List.mem_append.mp hq with hqc | hqr
          · rw [hs] at hqc
            exact absurd ((List.mem_singleton.mp hqc).trans hps.symm) hne
          · have hqs : p₀.2.start ≤ q.2.start := by
              rcases List.mem_cons.mp hqr with h | h
              · rw [h]
              · exact hp₀rest q h
            intro hov
            have hov' : p.2.start < q.2.end_ ∧ q.2.start < p.2.end_ := hov
            rw [hps] at hov'
            have := hov'.2
            rw [hse] at this
            linarith
      · have hpr' : p ∈ [p₀] ++ rest := by simpa using hpr
        have hp_start : p₀.2.start ≤ p.2.start := by
          rcases List.mem_cons.mp hpr with h | h
          · rw [h]
          · exact hp₀rest p h
        rcases List.mem_append.mp hq with hqc | hqr
        · have hq_end : q.2.end_ ≤ maxE := hub q hqc
          intro hov
          have hov' : p.2.start < q.2.end_ ∧ q.2.start < p.2.end_ := hov
          linarith
        · refine ih [p₀] p₀.2.end_ hsort' ?_ ?_
            ⟨p₀, List.mem_singleton_self p₀, rfl⟩ p hpr' habs2 q (by simpa using hqr) hne
          · intro x hx y hy
            rw [List.mem_singleton.mp hx]
            exact hp₀rest y hy
          · intro x hx
            rw [List.mem_singleton.mp hx]

/-- C4: for every line sequence (of valid lines), the clusters detect
returns are pairwise disjoint in membership, every cluster has at least two
distinct members drawn from the sequence whose intervals mutually
chain-overlap, and every line absent from all clusters overlaps no other
line of the sequence. -/
theorem detect_cluster_invariants (lines : List SubtitleLine)
    (hval : ∀ l ∈ lines, l.start < l.end_) :
    (∀ C ∈ detect lines,
        2 ≤ C.length ∧ C.Nodup ∧ connected C ∧ ∀ p ∈ C, p ∈ enumFrom 0 lines) ∧
    List.Pairwise (fun C D => ∀ p ∈ C, p ∉ D) (detect lines) ∧
    (∀ p ∈ enumFrom 0 lines, (∀ C ∈ detect lines, p ∉ C) →
        ∀ q ∈ enumFrom 0 lines, q ≠ p → ¬ overlaps p.2 q.2) := by
  have hperm : List.Perm (sortPairs (enumFrom 0 lines)) (enumFrom 0 lines) :=
    List.perm_insertionSort keyLe _
  have hsorted : List.Pairwise keyLe (sortPairs (enumFrom 0 lines)) :=
    List.sorted_insertionSort keyLe _
  have hnd0 : (sortPairs (enumFrom 0 lines)).Nodup :=
    hperm.nodup_iff.mpr (enumFrom_nodup 0 lines)
  cases hs : sortPairs (enumFrom 0 lines) with
  | nil =>
    have hnil : enumFrom 0 lines = [] := by
      rw [hs] at hperm
      exact hperm.symm.eq_nil
    have hdet : detect lines = [] := by
      unfold detect detectPairs
      rw [hs]
    refine ⟨?_, ?_, ?_⟩
    · intro C hC
      rw [hdet] at hC
      exact absurd hC (List.not_mem_nil C)
    · rw [hdet]
      exact List.Pairwise.nil
    · intro p hp
      rw [hnil] at hp
      exact absurd hp (List.not_mem_nil p)
  | cons p₁ rest =>
    rw [hs] at hperm hsorted hnd0
    have hdet : detect lines = sweepGo [p₁] p₁.2.end_ rest := by
      unfold detect detectPairs
      rw [hs]
    have hmem : ∀ x : IdxLine, x ∈ [p₁] ++ rest ↔ x ∈ enumFrom 0 lines := by
      intro x
      rw [List.singleton_append]
      exact hperm.mem_iff
    have hstart : List.Pairwise startLe (p₁ :: rest) :=
      hsorted.imp fun h => keyLe_startLe h
    have hle1 : ∀ q ∈ rest, startLe p₁ q := (List.pairwise_cons.mp hstart).1
    have hsort' : List.Pairwise startLe rest := (List.pairwise_cons.mp hstart).2
    have hle : ∀ p ∈ [p₁], ∀ q ∈ rest, startLe p q := by
      intro p hp q hq
      rw [List.mem_singleton.mp hp]
      exact hle1 q hq
    have hub : ∀ p ∈ [p₁], p.2.end_ ≤ p₁.2.end_ := by
      intro p hp
      rw [List.mem_singleton.mp hp]
    have hwit : ∃ t ∈ [p₁], t.2.end_ = p₁.2.end_ :=
      ⟨p₁, List.mem_singleton_self p₁, rfl⟩
    have hvalid : ∀ x ∈ [p₁] ++ rest, x.2.start < x.2.end_ := by
      intro x hx
      exact hval x.2 (enumFrom_snd_mem ((hmem x).mp hx))
    have hnd : ([p₁] ++ rest).Nodup := by simpa using hnd0
    refine ⟨?_, ?_, ?_⟩
    · intro C hC
      rw [hdet] at hC
      refine ⟨sweepGo_two_le rest _ _ C hC, sweepGo_nodup rest _ _ hnd C hC,
        sweepGo_connected rest [p₁] p₁.2.end_ hvalid hsort' hle hub hwit
          (connected_singleton p₁) C hC, ?_⟩
      intro x hxC
      exact (hmem x).mp (sweepGo_subset rest _ _ C hC x hxC)
    · rw [hdet]
      exact sweepGo_pairwise_disjoint rest _ _ hnd
    · intro p hp habs q hq hne
      have habs' : ∀ C ∈ sweepGo [p₁] p₁.2.end_ rest, p ∉ C := by
        intro C hC
        refine habs C ?_
        rw [hdet]
        exact hC
      exact sweepGo_absent rest [p₁] p₁.2.end_ hsort' hle hub hwit p
        ((hmem p).mpr hp) habs' q ((hmem q).mpr hq) hne

/-- Witness for C4 at the spec's example sequence [0,5], [3,8], [10,12]. -/
theorem detect_cluster_invariants_witness :
    List.Pairwise (fun C D => ∀ p ∈ C, p ∉ D)
      (detect [mkLine 0 5, mkLine 3 8, mkLine 10 12]) :=
  (detect_cluster_invariants [mkLine 0 5, mkLine 3 8, mkLine 10 12] (by decide)).2.1

/-- A successful close match skips exactly to the remainder past the
closing brace. -/
theorem findClose_append (xs bs : List Char) (hx1 : '}' ∉ xs)
    (hx2 : Char.ofNat 10 ∉ xs) :
    findClose (xs ++ '}' :: bs) = some bs := by
  induction xs with
  | nil =>
    rw [List.nil_append, findClose, if_pos rfl]
  | cons x xs ih =>
    rw [List.cons_append, findClose]
    rw [if_neg (fun h => hx1 (by rw [← h]; exact List.mem_cons_self x xs))]
    rw [if_neg (fun h => hx2 (by rw [← h]; exact List.mem_cons_self x xs))]
    exact ih (fun h => hx1 (List.mem_cons_of_mem x h))
      (fun h => hx2 (List.mem_cons_of_mem x h))

/-- Stripping removes a bracketed-markup occurrence: a brace-free prefix is
kept, the whole bracketed span disappears, and stripping continues on the
remainder. -/
theorem stripBracesAux_append (as xs bs : List Char) (ha : '{' ∉ as)
    (hx1 : '}' ∉ xs) (hx2 : Char.ofNat 10 ∉ xs) :
    stripBracesAux (as ++ '{' :: (xs ++ '}' :: bs)) = as ++ stripBracesAux bs := by
  induction as with
  | nil =>
    rw [List.nil_append, stripBracesAux, if_pos rfl]
    rw [findClose_append xs bs hx1 hx2]
    simp
  | cons a as ih =>
    rw [List.cons_append, stripBracesAux]
    rw [if_neg (fun h => ha (by rw [← h]; exact List.mem_cons_self a as))]
    rw [List.cons_append]
    rw [ih (fun h => ha (List.mem_cons_of_mem a h))]

/-- The constructor loop builds one label per line, in order. -/
theorem initButtons_fst (ls : List SubtitleLine) :
    (initButtons ls).1 = ls.map buttonString := by
  induction ls with
  | nil => rfl
  | cons l ls ih => simp [initButtons, ih]

/-- The constructor loop leaves the lines exactly as given. -/
theorem initButtons_snd (ls : List SubtitleLine) : (initButtons ls).2 = ls := by
  induction ls with
  | nil => rfl
  | cons l ls ih => simp [initButtons, ih]

/-- C5: the label displayed for each presented line carries the
tag-stripped preview of the line's text, building the previews leaves the
underlying lines (hence every text field) unchanged, and stripping removes
every bracketed-markup occurrence while keeping the surrounding text. -/
theorem preview_strips_tags (ls : List SubtitleLine) (i : Nat) (h : i < ls.length)
    (as xs bs : List Char) (ha : '{' ∉ as) (hx1 : '}' ∉ xs)
    (hx2 : Char.ofNat 10 ∉ xs) :
    (initSelWindow ls).labels.get? i =
      some ("Time = " ++ toString (ls.get ⟨i, h⟩).start ++ " to " ++
        toString (ls.get ⟨i, h⟩).end_ ++ " | Style = \"" ++ (ls.get ⟨i, h⟩).style ++
        "\" | Text = " ++ stripTags (ls.get ⟨i, h⟩).text) ∧
    (initButtons ls).2 = ls ∧
    stripBracesAux (as ++ '{' :: (xs ++ '}' :: bs)) = as ++ stripBracesAux bs := by
  refine ⟨?_, initButtons_snd ls, stripBracesAux_append as xs bs ha hx1 hx2⟩
  show (initButtons ls).1.get? i = _
  rw [initButtons_fst, List.get?_map, List.get?_eq_get h]
  rfl

/-- Witness for C5: the bracketed span of a concrete text disappears from
the preview while the surrounding characters survive. -/
theorem preview_strips_tags_witness :
    stripBracesAux (['a'] ++ '{' :: (['k'] ++ '}' :: ['b'])) =
      ['a'] ++ stripBracesAux ['b'] :=
  (preview_strips_tags [mkLineT 0 5 "a"] 0 (by decide) ['a'] ['k'] ['b']
    (by decide) (by decide) (by decide)).2.2

end KaraLuxer
